import Mathlib

/-!
Verification of the records matching / intersection / ranking engine and the
keyset pagination of the `my-api` repository.

The numeric domain of the store (Postgres `numeric` columns travelling through
JSON) is embedded as `Rat`; a `total_value` column that may be SQL `NULL` is
embedded as `Option Rat` (`none` = null).  JavaScript `Map` objects are
embedded as association lists with `Map.set` semantics (update in place,
append when absent); JavaScript `Set` objects as duplicate-free lists in
insertion order.  `parseInt` / `NaN` flow is embedded as `Option Int`
(`none` = NaN), since `Math.max`/`Math.min` propagate NaN.
-/

namespace MyApi

/-- `Number(x) || 0` applied to a `number | null` JSON field: a null (or
non-numeric) value coerces to `0`, a number is kept.
(From `src/app/api/v1/records/match/route.ts` line 108 / 123.) -/
def jsNum (v : Option Rat) : Rat :=
  match v with
  | some x => x
  | none => 0

/-- JS `Map.get`: association-list lookup. -/
def mapGet (m : List (String × α)) (k : String) : Option α :=
  match m with
  | [] => none
  | (k', v) :: rest => if k' = k then some v else mapGet rest k

/-- JS `Map.set`: update the existing entry in place, else append. -/
def mapSet (m : List (String × α)) (k : String) (v : α) : List (String × α) :=
  match m with
  | [] => [(k, v)]
  | (k', v') :: rest => if k' = k then (k, v) :: rest else (k', v') :: mapSet rest k v

/-- JS `Set.add`: append the element unless already present. -/
def insertIfNew (l : List String) (x : String) : List String :=
  if x ∈ l then l else l ++ [x]

/-- `new Set(list)`: deduplicate, keeping first occurrences in order. -/
def jsSetOfList (l : List String) : List String :=
  l.foldl insertIfNew []

/-- `.map((row, idx) => ({ row_number: idx + 1, ... }))` starting at `i`. -/
def addRowNumbers (i : Nat) : List α → List (Nat × α)
  | [] => []
  | a :: as => (i, a) :: addRowNumbers (i + 1) as

/-- Descending-by-value comparison used by
`.sort((a, b) => (b.total_value ?? 0) - (a.total_value ?? 0))`. -/
def valDesc (a b : String × Rat) : Prop := b.2 ≤ a.2

instance : DecidableRel valDesc := fun a b => inferInstanceAs (Decidable (b.2 ≤ a.2))

instance : IsTotal (String × Rat) valDesc := ⟨fun a b => le_total b.2 a.2⟩

instance : IsTrans (String × Rat) valDesc := ⟨fun _ _ _ h1 h2 => le_trans h2 h1⟩

/-- The JS stable sort by `total_value` descending. -/
def sortPairsDesc (l : List (String × Rat)) : List (String × Rat) :=
  List.insertionSort valDesc l

/-- The final ranking step shared by both value-match realizations
(`src/unnamed/part_003` lines 108-118, `match/route.ts` lines 130-136):
sort the deduplicated `(record_id, total_value)` entries by value descending,
then attach 1-based `row_number`s. -/
def rankResults (entries : List (String × Rat)) : List (Nat × String × Rat) :=
  addRowNumbers 1 (sortPairsDesc entries)

/-- One step of the `match/route.ts` no-products aggregator (lines 121-126):
`const tv = Number(r.total_value) || 0; const prev = map.get(r.record_id);
if (prev == null || tv > prev) map.set(r.record_id, tv);`. -/
def stepMatch (m : List (String × Rat)) (r : String × Option Rat) : List (String × Rat) :=
  match mapGet m r.1 with
  | none => mapSet m r.1 (jsNum r.2)
  | some prev => if prev < jsNum r.2 then mapSet m r.1 (jsNum r.2) else m

/-- The `match/route.ts` aggregator (lines 119-127): max of per-row coerced
`total_value` for each `record_id`. -/
def aggregateMatch (rows : List (String × Option Rat)) : List (String × Rat) :=
  rows.foldl stepMatch []

/-- One step of the `part_003` aggregator (lines 72-78):
`const prev = baseValueById.get(r.record_id);
if (prev == null || (typeof r.total_value === "number" && r.total_value > prev))
  baseValueById.set(r.record_id, r.total_value ?? 0);`.
Note: a null `total_value` is coerced to `0` only when the id is first seen;
later null rows are skipped entirely. -/
def step003 (m : List (String × Rat)) (r : String × Option Rat) : List (String × Rat) :=
  match mapGet m r.1 with
  | none => mapSet m r.1 (r.2.getD 0)
  | some prev =>
    match r.2 with
    | some v => if prev < v then mapSet m r.1 v else m
    | none => m

/-- The `part_003` base aggregator (lines 71-78). -/
def aggregate003 (rows : List (String × Option Rat)) : List (String × Rat) :=
  rows.foldl step003 []

/-- The coerced values a given id contributes in a raw row list. -/
def valuesOf (rows : List (String × Option Rat)) (id : String) : List Rat :=
  (rows.filter (fun r => r.1 = id)).map (fun r => jsNum r.2)

/-- Maximum of a list of rationals (`none` on the empty list). -/
def listMaxOpt : List Rat → Option Rat
  | [] => none
  | v :: vs => some (vs.foldl max v)

/-- Re-inject an aggregated `(id, value)` map as raw rows, for idempotence. -/
def reRows (m : List (String × Rat)) : List (String × Option Rat) :=
  m.map (fun p => (p.1, some p.2))

/-- A row of the `records` table, restricted to the columns the match
endpoints touch: `record_id`, `total_value` (nullable numeric), `sell`
(numeric), `prnk`, `product` (nullable id). -/
structure MatchRow where
  rid : String
  tv : Option Rat
  sell : Rat
  prnk : Nat
  product : Option String
deriving DecidableEq, Repr

/-- Outcome of a value-match POST: a 400 validation error with its message,
or a 200 payload of `{row_number, record_id, total_value}` entries. -/
inductive Outcome where
  | badRequest (msg : String) : Outcome
  | ok (results : List (Nat × String × Rat)) : Outcome
deriving DecidableEq, Repr

/-- The `part_003` per-product store query (lines 87-97):
`.from("records").select("record_id").eq("product", p)` followed by
`new Set(prodRows.map(r => r.record_id))`. -/
def idsForProduct (store : List MatchRow) (p : String) : List String :=
  jsSetOfList ((store.filter (fun r => r.product = some p)).map MatchRow.rid)

/-- The `part_003` intersection loop (lines 84-105).  Returns the surviving
id list (`none` when the loop returned the empty response early) together
with the list of product values actually sent to the store, in query order.
`if (!p) continue;` skips empty strings without querying. -/
def intersectLoop (inter : List String) (ps : List String) (store : List MatchRow) :
    Option (List String) × List String :=
  match ps with
  | [] => (some inter, [])
  | p :: rest =>
    if p = "" then intersectLoop inter rest store
    else
      if inter.filter (fun id => decide (id ∈ idsForProduct store p)) = [] then (none, [p])
      else
        ((intersectLoop (inter.filter (fun id => decide (id ∈ idsForProduct store p)))
            rest store).1,
          p :: (intersectLoop (inter.filter (fun id => decide (id ∈ idsForProduct store p)))
            rest store).2)

/-- The `part_003` base-range query (lines 58-63):
`prnk = 1 AND sell >= 0.9*value AND sell <= 1.1*value`. -/
def baseRowsFor (store : List MatchRow) (x : Rat) : List MatchRow :=
  store.filter (fun r =>
    decide (r.prnk = 1 ∧ 9/10 * x ≤ r.sell ∧ r.sell ≤ 11/10 * x))

/-- The `part_003` value-match POST (lines 38-121), instrumented with the
list of per-product store queries it issues.  `v` is `Number(body?.value)`
(`none` = NaN), `products` is `body?.products` when it is an array. -/
def part003MatchTrace (v : Option Rat) (products : Option (List String))
    (store : List MatchRow) : Outcome × List String :=
  let ps := products.getD []
  match v with
  | none => (.badRequest "value must be a positive number", [])
  | some x =>
    if x ≤ 0 then (.badRequest "value must be a positive number", [])
    else if 3 < ps.length then (.badRequest "products may have at most 3 items", [])
    else
      let baseRows := baseRowsFor store x
      if baseRows = [] then (.ok [], [])
      else
        let m := aggregate003 (baseRows.map (fun r => (r.rid, r.tv)))
        match intersectLoop (m.map Prod.fst) ps store with
        | (none, qs) => (.ok [], qs)
        | (some inter, qs) =>
          (.ok (rankResults (inter.map (fun id => (id, (mapGet m id).getD 0)))), qs)

/-- The `part_003` value-match POST, outcome only. -/
def part003Match (v : Option Rat) (products : Option (List String))
    (store : List MatchRow) : Outcome :=
  (part003MatchTrace v products store).1

/-- Does a row's `product` column match PostgREST `.in("product", ps)`?
A null column never matches. -/
def prodIn (r : MatchRow) (ps : List String) : Bool :=
  match r.product with
  | some p => decide (p ∈ ps)
  | none => false

/-- One step of the `match/route.ts` grouping pass for the products branch
(lines 104-111): per `record_id`, accumulate the set of seen products and the
max of coerced `total_value`s, starting the max at `0`. -/
def stepGroup (m : List (String × List String × Rat)) (r : MatchRow) :
    List (String × List String × Rat) :=
  let entry := (mapGet m r.rid).getD ([], 0)
  let set' := match r.product with
    | some p => insertIfNew entry.1 p
    | none => entry.1
  let max' := if entry.2 < jsNum r.tv then jsNum r.tv else entry.2
  mapSet m r.rid (set', max')

/-- The base fetch of `match/route.ts` (lines 80-87): the range-band query,
additionally restricted by `.in("product", products)` when products were
supplied. -/
def matchBaseRows (x : Rat) (ps : List String) (store : List MatchRow) :
    List MatchRow :=
  if ps = [] then baseRowsFor store x
  else (baseRowsFor store x).filter (fun r => prodIn r ps)

/-- The deduplicated `(record_id, total_value)` entries of `match/route.ts`
(lines 95-128): with products, group by id collecting product sets and the
max coerced value, keeping ids whose set holds every requested product;
without products, plain max-aggregation. -/
def matchKept (ps : List String) (baseRows : List MatchRow) : List (String × Rat) :=
  if ps = [] then aggregateMatch (baseRows.map (fun r => (r.rid, r.tv)))
  else
    ((baseRows.foldl stepGroup []).filter
        (fun e => ps.all (fun p => decide (p ∈ e.2.1)))).map
      (fun e => (e.1, e.2.2))

/-- The `match/route.ts` value-match POST (lines 23-142).  `products` is
sliced to its first 3 entries (line 29) — overlong lists are silently
truncated, never rejected. -/
def matchRoute (v : Option Rat) (products : Option (List String))
    (store : List MatchRow) : Outcome :=
  match v with
  | none => .badRequest "value must be a positive number"
  | some x =>
    if x ≤ 0 then .badRequest "value must be a positive number"
    else
      if matchBaseRows x ((products.getD []).take 3) store = [] then .ok []
      else
        .ok (rankResults (matchKept ((products.getD []).take 3)
          (matchBaseRows x ((products.getD []).take 3) store)))

/-- Outcome of the category-intersection POST: a 400 validation error or a
200 payload of `{row_number, record_id}` entries. -/
inductive CatOutcome where
  | badRequest (msg : String) : CatOutcome
  | ok (results : List (Nat × String)) : CatOutcome
deriving DecidableEq, Repr

/-- Ascending lexicographic comparison on strings, for `hits.sort()`. -/
def strLe (a b : String) : Prop := a ≤ b

instance : DecidableRel strLe := fun a b => inferInstanceAs (Decidable (a ≤ b))

instance : IsTotal String strLe := ⟨fun a b => le_total a b⟩

instance : IsTrans String strLe := ⟨fun _ _ _ h1 h2 => le_trans h1 h2⟩

/-- `hits.sort()` of `intersection-by-category/route.ts` line 96. -/
def sortStrings (l : List String) : List String :=
  List.insertionSort strLe l

/-- One step of the category grouping pass
(`intersection-by-category/route.ts` lines 78-84): `record_id -> set of
categories seen`, via `set.add(cat); byId.set(rid, set)`. -/
def addCat (m : List (String × List String)) (rid cat : String) :
    List (String × List String) :=
  mapSet m rid (insertIfNew ((mapGet m rid).getD []) cat)

/-- The batch category intersection (`intersection-by-category/route.ts`
lines 60-96): one fetch of all rows whose category is any requested value,
grouped by `record_id`; keep the ids whose observed category set contains
every requested category; sort ascending.  A row of the category store is a
`(record_id, category)` pair. -/
def batchHits (store : List (String × String)) (cats : List String) : List String :=
  sortStrings
    ((((store.filter (fun r => decide (r.2 ∈ cats))).foldl
          (fun m r => addCat m r.1 r.2) []).filter
        (fun e => cats.all (fun c => decide (c ∈ e.2)))).map Prod.fst)

/-- The category-intersection POST (`intersection-by-category/route.ts`
lines 37-106).  `body` is the `categories` field when it is an array of
strings; it is sliced to its first 3 entries (line 48). -/
def categoryRoute (body : Option (List String)) (store : List (String × String)) :
    CatOutcome :=
  if (body.getD []).take 3 = [] then
    .badRequest "categories must be a non-empty array (max 3)"
  else
    if store.filter (fun r => decide (r.2 ∈ (body.getD []).take 3)) = [] then .ok []
    else .ok (addRowNumbers 1 (batchHits store ((body.getD []).take 3)))

/-- The per-value store query of the iterative realization, over the
`(record_id, category)` store: the distinct ids of the rows whose category
equals the requested value (the loop's `prodSet`, `part_003` lines 87-97,
with the category column in place of the product column). -/
def catIds (store : List (String × String)) (c : String) : List String :=
  jsSetOfList ((store.filter (fun r => r.2 = c)).map Prod.fst)

/-- The iterative realization of category intersection: the `part_003`
intersection loop (lines 84-105) run over the same `(record_id, category)`
store, matching rows by category equality instead of product equality. -/
def iterLoop (inter : List String) (cs : List String) (store : List (String × String)) :
    List String :=
  match cs with
  | [] => inter
  | c :: rest =>
    if c = "" then iterLoop inter rest store
    else
      if inter.filter (fun id => decide (id ∈ catIds store c)) = [] then []
      else iterLoop (inter.filter (fun id => decide (id ∈ catIds store c))) rest store

/-- A row of the `records` table as the listing endpoint selects it
(`records/route.ts` line 55): `record_id` (the ascending sort key, compared
numerically by the cursor) and `total_value`. -/
structure RecRow where
  rid : Int
  tv : Rat
deriving DecidableEq, Repr

/-- The trimming step of the records listing (`records/route.ts` lines
52-96): `rows` is the store's reply ordered ascending by `record_id` after
all filters; `.limit(limit + 1)` fetches its first `limit + 1` rows; if more
than `limit` came back, trim to `limit` and take the last retained row's
`record_id` as `nextCursor`, else return everything with a null cursor. -/
def recordsPage (rows : List RecRow) (limit : Nat) : List RecRow × Option Int :=
  if limit < (rows.take (limit + 1)).length then
    ((rows.take (limit + 1)).take limit,
      ((((rows.take (limit + 1)).take limit).getLast?).map RecRow.rid))
  else (rows.take (limit + 1), none)

/-- A row of the `part_000` listing (`records` table): the `id` sort column
and the `prnk` flag it filters on. -/
structure CatRow where
  id : Int
  prnk : Nat
deriving DecidableEq, Repr

/-- Ascending order on `CatRow.id`, for `.order("id", { ascending: true })`. -/
def idLe (a b : CatRow) : Prop := a.id ≤ b.id

instance : DecidableRel idLe := fun a b => inferInstanceAs (Decidable (a.id ≤ b.id))

instance : IsTotal CatRow idLe := ⟨fun a b => le_total a.id b.id⟩

instance : IsTrans CatRow idLe := ⟨fun _ _ _ h1 h2 => le_trans h1 h2⟩

/-- The `part_000` GET listing (lines 41-69) with no `q` filter: keep rows
with `prnk = 1`, apply the cursor as `.lt("id", cursor)` (strictly LESS-than,
despite the ascending-by-id order), sort ascending by `id`, fetch
`limit + 1`, trim, and emit the last retained row's `id` as `nextCursor`. -/
def part000List (store : List CatRow) (cursor : Option Int) (limit : Nat) :
    List CatRow × Option Int :=
  let filtered := (store.filter (fun r => r.prnk == 1)).filter (fun r =>
    match cursor with
    | some c => decide (r.id < c)
    | none => true)
  let data := (List.insertionSort idLe filtered).take (limit + 1)
  if limit < data.length then
    let page := data.take limit
    (page, (page.getLast?).map CatRow.id)
  else (data, none)

/-- ECMAScript digit value of a character (`0-9`, `a-z`, `A-Z`). -/
def digitVal (c : Char) : Option Nat :=
  if '0' ≤ c ∧ c ≤ '9' then some (c.toNat - '0'.toNat)
  else if 'a' ≤ c ∧ c ≤ 'z' then some (c.toNat - 'a'.toNat + 10)
  else if 'A' ≤ c ∧ c ≤ 'Z' then some (c.toNat - 'A'.toNat + 10)
  else none

/-- The longest leading run of digits valid in the given radix. -/
def takeDigits (radix : Nat) : List Char → List Nat
  | [] => []
  | c :: cs =>
    match digitVal c with
    | some d => if d < radix then d :: takeDigits radix cs else []
    | none => []

/-- ECMAScript `parseInt(s, radix)` (`none` = NaN): NaN whenever the radix
lies outside `[2, 36]`; otherwise parse an optional sign and the leading
digit run, NaN when there is none.  (`parseInt` also skips leading
whitespace, which is not modeled: no call site passes whitespace.) -/
def jsParseInt (radix : Nat) (s : String) : Option Int :=
  if radix < 2 ∨ 36 < radix then none
  else
    match s.toList with
    | '-' :: t =>
      let ds := takeDigits radix t
      if ds = [] then none
      else some (-(ds.foldl (fun acc d => acc * radix + d) 0 : Nat))
    | '+' :: t =>
      let ds := takeDigits radix t
      if ds = [] then none
      else some ((ds.foldl (fun acc d => acc * radix + d) 0 : Nat))
    | t =>
      let ds := takeDigits radix t
      if ds = [] then none
      else some ((ds.foldl (fun acc d => acc * radix + d) 0 : Nat))

/-- `searchParams.get("limit") || "20"`: a missing or empty parameter falls
back to the string `"20"`. -/
def limitRaw (limitParam : Option String) : String :=
  match limitParam with
  | none => "20"
  | some t => if t = "" then "20" else t

/-- The effective limit of `records/route.ts` (lines 47-48):
`Math.min(Math.max(parseInt(raw, 10), 1), 100)`, with NaN propagating
through both `Math.max` and `Math.min` (`none` = NaN). -/
def recordsLimit (limitParam : Option String) : Option Int :=
  (jsParseInt 10 (limitRaw limitParam)).map (fun n => min (max n 1) 100)

/-- The effective limit of `part_000` (lines 47-48):
`Math.min(Math.max(parseInt(raw, 100), 1), 1000)` — note the radix `100`
(out of range, so every parse is NaN) and the cap of `1000`. -/
def part000Limit (limitParam : Option String) : Option Int :=
  (jsParseInt 100 (limitRaw limitParam)).map (fun n => min (max n 1) 1000)

/-! ### Association-list (JS `Map`) lemmas -/

theorem mapGet_mapSet_self (m : List (String × α)) (k : String) (v : α) :
    mapGet (mapSet m k v) k = some v := by
  induction m with
  | nil => simp [mapGet, mapSet]
  | cons hd tl ih =>
    obtain ⟨k', v'⟩ := hd
    by_cases h : k' = k
    · simp [mapGet, mapSet, h]
    · simp [mapGet, mapSet, h, ih]

theorem mapGet_mapSet_ne (m : List (String × α)) (k : String) (v : α) (k' : String)
    (h : k ≠ k') : mapGet (mapSet m k v) k' = mapGet m k' := by
  induction m with
  | nil => simp [mapGet, mapSet, h]
  | cons hd tl ih =>
    obtain ⟨a, b⟩ := hd
    by_cases ha : a = k
    · subst ha
      simp [mapGet, mapSet, h]
    · simp only [mapSet, if_neg ha]
      by_cases hb : a = k'
      · simp [mapGet, hb]
      · simp [mapGet, hb, ih]

theorem keys_mapSet (m : List (String × α)) (k : String) (v : α) :
    (mapSet m k v).map Prod.fst =
      if k ∈ m.map Prod.fst then m.map Prod.fst else m.map Prod.fst ++ [k] := by
  induction m with
  | nil => simp [mapSet]
  | cons hd tl ih =>
    obtain ⟨a, b⟩ := hd
    by_cases ha : a = k
    · subst ha
      simp [mapSet]
    · simp only [mapSet, if_neg ha, List.map_cons]
      rw [ih]
      by_cases hk : k ∈ tl.map Prod.fst
      · simp [hk, Ne.symm ha]
      · simp [hk, Ne.symm ha]

theorem keys_mapSet_nodup (m : List (String × α)) (k : String) (v : α)
    (h : (m.map Prod.fst).Nodup) : ((mapSet m k v).map Prod.fst).Nodup := by
  rw [keys_mapSet]
  by_cases hk : k ∈ m.map Prod.fst
  · simpa [hk]
  · simp only [hk, if_false]
    refine List.Nodup.append h (List.nodup_singleton k) ?_
    intro a ha hb
    simp only [List.mem_singleton] at hb
    exact hk (hb ▸ ha)

theorem mapGet_isSome_iff_mem_keys (m : List (String × α)) (k : String) :
    (mapGet m k).isSome ↔ k ∈ m.map Prod.fst := by
  induction m with
  | nil => simp [mapGet]
  | cons hd tl ih =>
    obtain ⟨a, b⟩ := hd
    by_cases ha : a = k
    · simp [mapGet, ha]
    · simp [mapGet, ha, ih, Ne.symm ha]

/-- On a map with duplicate-free keys, the entries of key `k` are exactly
what `mapGet` reports. -/
theorem filter_key_of_nodup (m : List (String × α)) (k : String)
    (h : (m.map Prod.fst).Nodup) :
    m.filter (fun p => p.1 = k) =
      match mapGet m k with
      | some v => [(k, v)]
      | none => [] := by
  induction m with
  | nil => simp [mapGet]
  | cons hd tl ih =>
    obtain ⟨a, b⟩ := hd
    simp only [List.map_cons, List.nodup_cons] at h
    by_cases ha : a = k
    · subst ha
      have : tl.filter (fun p => p.1 = a) = [] := by
        apply List.filter_eq_nil_iff.mpr
        intro p hp
        simp only [decide_eq_true_eq]
        intro hpa
        exact h.1 (hpa ▸ List.mem_map_of_mem Prod.fst hp)
      simp [mapGet, List.filter_cons, this]
    · simp [mapGet, List.filter_cons, ha, ih h.2]

/-! ### JS `Set` lemmas -/

theorem mem_insertIfNew (l : List String) (x y : String) :
    y ∈ insertIfNew l x ↔ y ∈ l ∨ y = x := by
  by_cases h : x ∈ l
  · constructor
    · intro hy
      simp only [insertIfNew, if_pos h] at hy
      exact Or.inl hy
    · intro hy
      simp only [insertIfNew, if_pos h]
      rcases hy with hy | hy
      · exact hy
      · exact hy ▸ h
  · simp [insertIfNew, if_neg h, List.mem_append]

theorem mem_foldl_insertIfNew (l : List String) (acc : List String) (y : String) :
    y ∈ l.foldl insertIfNew acc ↔ y ∈ acc ∨ y ∈ l := by
  induction l generalizing acc with
  | nil => simp
  | cons hd tl ih =>
    simp only [List.foldl_cons, ih, mem_insertIfNew, List.mem_cons]
    tauto

theorem mem_jsSetOfList (l : List String) (y : String) :
    y ∈ jsSetOfList l ↔ y ∈ l := by
  simp [jsSetOfList, mem_foldl_insertIfNew]

/-! ### Characterization of the `match/route.ts` aggregator -/

/-- The effect of one aggregation step on the running value of a key. -/
def optMax (o : Option Rat) (v : Rat) : Option Rat :=
  match o with
  | none => some v
  | some p => some (max p v)

theorem mapGet_stepMatch_self (m : List (String × Rat)) (r : String × Option Rat) :
    mapGet (stepMatch m r) r.1 = optMax (mapGet m r.1) (jsNum r.2) := by
  unfold stepMatch optMax
  cases h : mapGet m r.1 with
  | none => simp [mapGet_mapSet_self]
  | some prev =>
    by_cases hlt : prev < jsNum r.2
    · simp [hlt, mapGet_mapSet_self, max_eq_right (le_of_lt hlt)]
    · simp [hlt, h, max_eq_left (not_lt.mp hlt)]

theorem mapGet_stepMatch_ne (m : List (String × Rat)) (r : String × Option Rat)
    (id : String) (h : r.1 ≠ id) : mapGet (stepMatch m r) id = mapGet m id := by
  unfold stepMatch
  cases mapGet m r.1 with
  | none => exact mapGet_mapSet_ne m r.1 (jsNum r.2) id h
  | some prev =>
    by_cases hlt : prev < jsNum r.2
    · simp [hlt, mapGet_mapSet_ne m r.1 (jsNum r.2) id h]
    · simp [hlt]

theorem mapGet_foldl_stepMatch (rows : List (String × Option Rat))
    (m : List (String × Rat)) (id : String) :
    mapGet (rows.foldl stepMatch m) id = (valuesOf rows id).foldl optMax (mapGet m id) := by
  induction rows generalizing m with
  | nil => simp [valuesOf]
  | cons r rest ih =>
    by_cases hid : r.1 = id
    · subst hid
      have hv : valuesOf (r :: rest) r.1 = jsNum r.2 :: valuesOf rest r.1 := by
        simp [valuesOf, List.filter_cons]
      rw [List.foldl_cons, ih, hv, List.foldl_cons, mapGet_stepMatch_self m r]
    · have hv : valuesOf (r :: rest) id = valuesOf rest id := by
        simp [valuesOf, List.filter_cons, hid]
      rw [List.foldl_cons, ih, hv, mapGet_stepMatch_ne m r id hid]

theorem foldl_optMax_some (vs : List Rat) (p : Rat) :
    vs.foldl optMax (some p) = some (vs.foldl max p) := by
  induction vs generalizing p with
  | nil => rfl
  | cons v rest ih => simp [optMax, ih]

theorem foldl_optMax_none (vs : List Rat) :
    vs.foldl optMax none = listMaxOpt vs := by
  cases vs with
  | nil => rfl
  | cons v rest => simp [listMaxOpt, optMax, foldl_optMax_some]

/-- Lookup in the `match/route.ts` aggregation is exactly the maximum of the
row values (coerced via `Number(x) || 0`) contributed by that id. -/
theorem aggregateMatch_lookup (rows : List (String × Option Rat)) (id : String) :
    mapGet (aggregateMatch rows) id = listMaxOpt (valuesOf rows id) := by
  rw [aggregateMatch, mapGet_foldl_stepMatch]
  simp [mapGet, foldl_optMax_none]

theorem foldl_max_mem (vs : List Rat) (v : Rat) : vs.foldl max v ∈ v :: vs := by
  induction vs generalizing v with
  | nil => simp
  | cons w ws ih =>
    rw [List.foldl_cons]
    rcases List.mem_cons.mp (ih (max v w)) with h | h
    · rw [h]
      rcases max_choice v w with hm | hm <;> rw [hm]
      · exact List.mem_cons_self _ _
      · exact List.mem_cons.mpr (Or.inr (List.mem_cons_self _ _))
    · exact List.mem_cons.mpr (Or.inr (List.mem_cons.mpr (Or.inr h)))

theorem le_foldl_max (vs : List Rat) : ∀ (v w : Rat), w ∈ v :: vs → w ≤ vs.foldl max v := by
  induction vs with
  | nil =>
    intro v w h
    simp only [List.mem_singleton] at h
    exact le_of_eq h
  | cons u us ih =>
    intro v w h
    rw [List.foldl_cons]
    rcases List.mem_cons.mp h with rfl | hw
    · exact le_trans (le_max_left w u) (ih (max w u) (max w u) (List.mem_cons_self _ _))
    · rcases List.mem_cons.mp hw with rfl | hw'
      · exact le_trans (le_max_right v w) (ih (max v w) (max v w) (List.mem_cons_self _ _))
      · exact ih (max v u) w (List.mem_cons.mpr (Or.inr hw'))

theorem listMaxOpt_eq_none_iff (l : List Rat) : listMaxOpt l = none ↔ l = [] := by
  cases l <;> simp [listMaxOpt]

theorem listMaxOpt_mem {l : List Rat} {v : Rat} (h : listMaxOpt l = some v) : v ∈ l := by
  cases l with
  | nil => simp [listMaxOpt] at h
  | cons w ws =>
    simp only [listMaxOpt, Option.some.injEq] at h
    exact h ▸ foldl_max_mem ws w

theorem listMaxOpt_is_ub {l : List Rat} {v : Rat} (h : listMaxOpt l = some v) :
    ∀ w ∈ l, w ≤ v := by
  cases l with
  | nil => simp
  | cons u us =>
    simp only [listMaxOpt, Option.some.injEq] at h
    intro w hw
    exact h ▸ le_foldl_max us u w hw

theorem listMaxOpt_perm {l l' : List Rat} (h : l.Perm l') :
    listMaxOpt l = listMaxOpt l' := by
  cases hl : listMaxOpt l with
  | none =>
    rw [listMaxOpt_eq_none_iff] at hl
    subst hl
    have h' : l' = [] := List.Perm.eq_nil h.symm
    simp [h', listMaxOpt]
  | some v =>
    cases hl' : listMaxOpt l' with
    | none =>
      rw [listMaxOpt_eq_none_iff] at hl'
      subst hl'
      rw [List.Perm.eq_nil h] at hl
      simp [listMaxOpt] at hl
    | some w =>
      have hv : v ∈ l' := h.mem_iff.mp (listMaxOpt_mem hl)
      have hw : w ∈ l := h.mem_iff.mpr (listMaxOpt_mem hl')
      exact congrArg some (le_antisymm (listMaxOpt_is_ub hl' v hv) (listMaxOpt_is_ub hl w hw))

theorem stepMatch_keys_nodup (m : List (String × Rat)) (r : String × Option Rat)
    (h : (m.map Prod.fst).Nodup) : ((stepMatch m r).map Prod.fst).Nodup := by
  unfold stepMatch
  cases mapGet m r.1 with
  | none => exact keys_mapSet_nodup _ _ _ h
  | some prev =>
    by_cases hlt : prev < jsNum r.2
    · simp only [if_pos hlt]
      exact keys_mapSet_nodup _ _ _ h
    · simpa [hlt] using h

theorem aggregateMatch_keys_nodup (rows : List (String × Option Rat)) :
    ((aggregateMatch rows).map Prod.fst).Nodup := by
  have main : ∀ (rs : List (String × Option Rat)) (m : List (String × Rat)),
      (m.map Prod.fst).Nodup → (((rs.foldl stepMatch m)).map Prod.fst).Nodup := by
    intro rs
    induction rs with
    | nil => intro m h; exact h
    | cons r rest ih => intro m h; exact ih _ (stepMatch_keys_nodup m r h)
  exact main rows [] (by simp)

theorem valuesOf_eq_nil_iff (rows : List (String × Option Rat)) (id : String) :
    valuesOf rows id = [] ↔ id ∉ rows.map Prod.fst := by
  unfold valuesOf
  rw [List.map_eq_nil_iff, List.filter_eq_nil_iff]
  constructor
  · intro h hmem
    obtain ⟨r, hr, hid⟩ := List.mem_map.mp hmem
    exact absurd (by simpa using hid) (by simpa using h r hr)
  · intro h r hr
    simp only [decide_eq_true_eq]
    intro hid
    exact h (List.mem_map.mpr ⟨r, hr, hid⟩)

theorem aggregateMatch_isSome_iff (rows : List (String × Option Rat)) (id : String) :
    (mapGet (aggregateMatch rows) id).isSome ↔ id ∈ rows.map Prod.fst := by
  rw [aggregateMatch_lookup, ← not_iff_not, Option.not_isSome_iff_eq_none,
    listMaxOpt_eq_none_iff, valuesOf_eq_nil_iff]

theorem jsNum_some (x : Rat) : jsNum (some x) = x := rfl

theorem valuesOf_reRows_aux (m : List (String × Rat)) (id : String) :
    valuesOf (reRows m) id = (m.filter (fun p => p.1 = id)).map Prod.snd := by
  unfold valuesOf reRows
  induction m with
  | nil => simp
  | cons hd tl ih =>
    by_cases hk : hd.1 = id <;> simp [List.filter_cons, hk, ih, jsNum_some]

theorem valuesOf_reRows (m : List (String × Rat)) (id : String)
    (h : (m.map Prod.fst).Nodup) :
    valuesOf (reRows m) id =
      match mapGet m id with
      | some v => [v]
      | none => [] := by
  rw [valuesOf_reRows_aux, filter_key_of_nodup m id h]
  cases mapGet m id <;> simp

theorem valuesOf_perm {rows rows' : List (String × Option Rat)}
    (h : rows.Perm rows') (id : String) :
    (valuesOf rows id).Perm (valuesOf rows' id) :=
  (h.filter _).map _

/-! ### Claim C4 -/

/-- C4, counterexample: the `part_003` aggregator (lines 71-78) is NOT
order-independent.  On the two permutations of the rows
`[(r, null), (r, -5)]` it produces the mappings `r ↦ 0` and `r ↦ -5`
respectively, because a null `total_value` is coerced to `0` only when the
id is first seen and is skipped afterwards. -/
theorem c4_order_dependence_counterexample :
    List.Perm [(("r" : String), (none : Option Rat)), ("r", some (-5))]
      [("r", some (-5)), ("r", none)]
    ∧ mapGet (aggregate003 [("r", none), ("r", some (-5))]) "r" = some 0
    ∧ mapGet (aggregate003 [("r", some (-5)), ("r", none)]) "r" = some (-5)
    ∧ (some (0 : Rat)) ≠ some (-5) := by
  refine ⟨List.Perm.swap _ _ _, by decide, by decide, by decide⟩

/-- C4 (amended): the `match/route.ts` aggregator (lines 119-127), which
coerces every row's `total_value` via `Number(x) || 0` before taking the
maximum, satisfies the whole claim: it produces exactly one entry per
entity id (duplicate-free keys, one key per id occurring in the rows),
holding the maximum observed coerced value among that id's rows, and the
resulting id-to-value mapping is idempotent and order-independent.  The
`part_003` aggregator deviates only in the null-handling corner shown by
the counterexample. -/
theorem c4_aggregator_amended (rows : List (String × Option Rat)) :
    ((aggregateMatch rows).map Prod.fst).Nodup
    ∧ (∀ id, (mapGet (aggregateMatch rows) id).isSome ↔ id ∈ rows.map Prod.fst)
    ∧ (∀ id v, mapGet (aggregateMatch rows) id = some v →
        v ∈ valuesOf rows id ∧ ∀ w ∈ valuesOf rows id, w ≤ v)
    ∧ (∀ id, mapGet (aggregateMatch (reRows (aggregateMatch rows))) id
        = mapGet (aggregateMatch rows) id)
    ∧ (∀ rows', rows.Perm rows' →
        ∀ id, mapGet (aggregateMatch rows') id = mapGet (aggregateMatch rows) id) := by
  refine ⟨aggregateMatch_keys_nodup rows, aggregateMatch_isSome_iff rows, ?_, ?_, ?_⟩
  · intro id v h
    rw [aggregateMatch_lookup] at h
    exact ⟨listMaxOpt_mem h, listMaxOpt_is_ub h⟩
  · intro id
    rw [aggregateMatch_lookup, valuesOf_reRows _ id (aggregateMatch_keys_nodup rows)]
    cases mapGet (aggregateMatch rows) id <;> simp [listMaxOpt]
  · intro rows' hperm id
    rw [aggregateMatch_lookup, aggregateMatch_lookup]
    exact listMaxOpt_perm (valuesOf_perm hperm id).symm

/-- Witness for C4 (amended) at concrete rows. -/
theorem c4_aggregator_amended_witness :
    mapGet (aggregateMatch [(("r" : String), some (3 : Rat)), ("r", some 7), ("s", none)]) "r"
      = some 7
    ∧ mapGet (aggregateMatch [(("r" : String), some (7 : Rat)), ("s", none), ("r", some 3)]) "r"
      = some 7 := by
  have h := (c4_aggregator_amended
    [(("r" : String), some (3 : Rat)), ("r", some 7), ("s", none)]).2.2.2.2
    [(("r" : String), some (7 : Rat)), ("s", none), ("r", some 3)] (by decide) "r"
  exact ⟨by decide, by rw [h]; decide⟩

/-! ### Ranking lemmas -/

theorem addRowNumbers_length (i : Nat) (l : List α) :
    (addRowNumbers i l).length = l.length := by
  induction l generalizing i with
  | nil => rfl
  | cons a as ih => simp [addRowNumbers, ih]

theorem addRowNumbers_map_val (f : α → β) (i : Nat) (l : List α) :
    (addRowNumbers i l).map (fun e => f e.2) = l.map f := by
  induction l generalizing i with
  | nil => rfl
  | cons a as ih => simp [addRowNumbers, ih]

theorem addRowNumbers_map_fst (i : Nat) (l : List α) :
    (addRowNumbers i l).map Prod.fst = List.range' i l.length := by
  induction l generalizing i with
  | nil => rfl
  | cons a as ih => simp [addRowNumbers, ih, List.range'_succ]

theorem addRowNumbers_get (l : List α) :
    ∀ (j i : Nat) (h : i < (addRowNumbers j l).length),
      ((addRowNumbers j l).get ⟨i, h⟩).1 = j + i := by
  induction l with
  | nil => intro j i h; simp [addRowNumbers] at h
  | cons a as ih =>
    intro j i h
    cases i with
    | zero => simp [addRowNumbers]
    | succ n =>
      have h' : n < (addRowNumbers (j + 1) as).length := by
        simpa [addRowNumbers] using h
      have : ((addRowNumbers j (a :: as)).get ⟨n + 1, h⟩)
          = ((addRowNumbers (j + 1) as).get ⟨n, h'⟩) := rfl
      rw [this, ih (j + 1) n h']
      omega

theorem sortPairsDesc_sorted (l : List (String × Rat)) :
    List.Sorted valDesc (sortPairsDesc l) :=
  List.sorted_insertionSort valDesc l

theorem sortPairsDesc_perm (l : List (String × Rat)) : (sortPairsDesc l).Perm l :=
  List.perm_insertionSort valDesc l

theorem rankResults_length (entries : List (String × Rat)) :
    (rankResults entries).length = entries.length := by
  rw [rankResults, addRowNumbers_length]
  exact (sortPairsDesc_perm entries).length_eq

/-- The values along a ranked output are non-increasing. -/
theorem rankResults_values_pairwise (entries : List (String × Rat)) :
    List.Pairwise (fun x y : Rat => y ≤ x)
      ((rankResults entries).map (fun e => e.2.2)) := by
  have hmap : (rankResults entries).map (fun e => e.2.2)
      = (sortPairsDesc entries).map (fun p => p.2) :=
    addRowNumbers_map_val (fun p => p.2) 1 (sortPairsDesc entries)
  rw [hmap]
  exact List.Pairwise.map _ (fun a b h => h) (sortPairsDesc_sorted entries)

/-! ### Claim C6 -/

/-- C6: for every deduplicated `(id, value)` entry list, the value-match
response (`rankResults`, from `part_003` lines 108-118 and `match/route.ts`
lines 130-136) is sorted by value in non-increasing order, the entry at
0-based position `i` carries `row_number = i + 1`, and the ranks are exactly
`1, ..., N` (as the list `range' 1 N`), with no gaps or repeats. -/
theorem c6_ranking (entries : List (String × Rat)) (_hdedup : entries.Nodup) :
    (rankResults entries).map Prod.fst = List.range' 1 entries.length
    ∧ List.Pairwise (fun x y : Rat => y ≤ x)
        ((rankResults entries).map (fun e => e.2.2))
    ∧ ∀ (i : Nat) (hi : i < (rankResults entries).length),
        ((rankResults entries).get ⟨i, hi⟩).1 = i + 1 := by
  refine ⟨?_, rankResults_values_pairwise entries, ?_⟩
  · rw [rankResults, addRowNumbers_map_fst, (sortPairsDesc_perm entries).length_eq]
  · intro i hi
    show ((addRowNumbers 1 (sortPairsDesc entries)).get ⟨i, hi⟩).1 = i + 1
    rw [addRowNumbers_get (sortPairsDesc entries) 1 i hi]
    omega

/-- Witness for C6 at a concrete entry list. -/
theorem c6_ranking_witness :
    (rankResults [(("a" : String), (2 : Rat)), ("b", 1)]).map Prod.fst
      = List.range' 1 ([(("a" : String), (2 : Rat)), ("b", 1)] : List (String × Rat)).length :=
  (c6_ranking [(("a" : String), (2 : Rat)), ("b", 1)] (by decide)).1

/-! ### Claim C10 -/

theorem mapGet_step003_ne (m : List (String × Rat)) (r : String × Option Rat)
    (id : String) (h : r.1 ≠ id) : mapGet (step003 m r) id = mapGet m id := by
  unfold step003
  cases hm : mapGet m r.1 with
  | none => simp [hm, mapGet_mapSet_ne m r.1 _ id h]
  | some prev =>
    cases hv : r.2 with
    | some v =>
      by_cases hlt : prev < v
      · simp [hm, hv, hlt, mapGet_mapSet_ne m r.1 v id h]
      · simp [hm, hv, hlt]
    | none => simp [hm, hv]

theorem aggregate003_allnull_aux (rows : List (String × Option Rat)) :
    ∀ (m : List (String × Rat)) (id : String),
    (∀ r ∈ rows, r.1 = id → r.2 = none) →
    mapGet (rows.foldl step003 m) id =
      match mapGet m id with
      | some v => some v
      | none => if id ∈ rows.map Prod.fst then some 0 else none := by
  induction rows with
  | nil =>
    intro m id _
    rw [List.foldl_nil]
    cases h : mapGet m id <;> simp [h]
  | cons r rest ih =>
    intro m id hnull
    rw [List.foldl_cons]
    by_cases hid : r.1 = id
    · subst hid
      have hr2 : r.2 = none := hnull r (List.mem_cons_self _ _) rfl
      have hrest : ∀ p ∈ rest, p.1 = r.1 → p.2 = none :=
        fun p hp => hnull p (List.mem_cons.mpr (Or.inr hp))
      cases hm : mapGet m r.1 with
      | none =>
        have hstep : step003 m r = mapSet m r.1 0 := by
          simp [step003, hm, hr2]
        rw [hstep, ih (mapSet m r.1 0) r.1 hrest, mapGet_mapSet_self]
        simp [hm]
      | some prev =>
        have hstep : step003 m r = m := by
          simp [step003, hm, hr2]
        rw [hstep, ih m r.1 hrest]
        simp [hm]
    · have hrest : ∀ p ∈ rest, p.1 = id → p.2 = none :=
        fun p hp => hnull p (List.mem_cons.mpr (Or.inr hp))
      rw [ih (step003 m r) id hrest, mapGet_step003_ne m r id hid]
      cases mapGet m id with
      | some v => rfl
      | none =>
        have hmem : id ∈ (r :: rest).map Prod.fst ↔ id ∈ rest.map Prod.fst := by
          simp only [List.map_cons, List.mem_cons]
          constructor
          · rintro (h | h)
            · exact absurd h.symm hid
            · exact h
          · exact Or.inr
        rw [if_congr hmem rfl rfl]

theorem aggregate003_allnull (rows : List (String × Option Rat)) (id : String)
    (hmem : id ∈ rows.map Prod.fst)
    (hnull : ∀ r ∈ rows, r.1 = id → r.2 = none) :
    mapGet (aggregate003 rows) id = some 0 := by
  rw [aggregate003, aggregate003_allnull_aux rows [] id hnull]
  simp [mapGet, hmem]

theorem aggregateMatch_allnull (rows : List (String × Option Rat)) (id : String)
    (hmem : id ∈ rows.map Prod.fst)
    (hnull : ∀ r ∈ rows, r.1 = id → r.2 = none) :
    mapGet (aggregateMatch rows) id = some 0 := by
  rw [aggregateMatch_lookup]
  have hne : valuesOf rows id ≠ [] := by
    rw [Ne, valuesOf_eq_nil_iff]
    simpa using hmem
  have hzero : ∀ w ∈ valuesOf rows id, w = 0 := by
    intro w hw
    unfold valuesOf at hw
    obtain ⟨r, hr, hrw⟩ := List.mem_map.mp hw
    have hr' := List.mem_filter.mp hr
    have : r.2 = none := hnull r hr'.1 (by simpa using hr'.2)
    rw [← hrw, this]
    rfl
  cases h : listMaxOpt (valuesOf rows id) with
  | none => exact absurd (listMaxOpt_eq_none_iff _ |>.mp h) hne
  | some v => rw [hzero v (listMaxOpt_mem h)]

theorem aggregateMatch_coerce (rows : List (String × Option Rat)) (id : String) :
    mapGet (aggregateMatch (rows.map (fun r => (r.1, some (jsNum r.2))))) id
      = mapGet (aggregateMatch rows) id := by
  rw [aggregateMatch_lookup, aggregateMatch_lookup]
  congr 1
  unfold valuesOf
  induction rows with
  | nil => rfl
  | cons r rest ih =>
    by_cases hk : r.1 = id <;> simp [List.filter_cons, hk, ih, jsNum_some]

/-- C10, counterexample: in the `part_003` aggregator a null `total_value`
row is NOT always treated as value `0`; it is skipped when its id is already
present.  On `[(r, -5), (r, null)]` the result keeps `-5`, whereas replacing
the null by `0` (the treatment the claim asserts) yields `0`. -/
theorem c10_null_not_zero_counterexample :
    mapGet (aggregate003 [(("r" : String), some (-5 : Rat)), ("r", none)]) "r" = some (-5)
    ∧ mapGet (aggregate003 [(("r" : String), some (-5 : Rat)), ("r", some 0)]) "r" = some 0
    ∧ (some (-5 : Rat)) ≠ some 0 := by
  exact ⟨by decide, by decide, by decide⟩

/-- C10 (amended): an entity all of whose rows have null `total_value` is
still returned with value `0` by both aggregators; the `match/route.ts`
aggregator moreover treats every null row exactly as a `0`-valued row
(replacing each row's value by its coercion never changes the mapping);
and in the ranked output every entity with positive value precedes every
entity with non-positive (in particular zero) value.  The `part_003`
aggregator treats a null row as `0` only when its id is first seen, as the
counterexample shows. -/
theorem c10_null_coercion_amended :
    (∀ (rows : List (String × Option Rat)) (id : String),
      id ∈ rows.map Prod.fst → (∀ r ∈ rows, r.1 = id → r.2 = none) →
      mapGet (aggregate003 rows) id = some 0 ∧ mapGet (aggregateMatch rows) id = some 0)
    ∧ (∀ (rows : List (String × Option Rat)) (id : String),
      mapGet (aggregateMatch (rows.map (fun r => (r.1, some (jsNum r.2))))) id
        = mapGet (aggregateMatch rows) id)
    ∧ (∀ (entries : List (String × Rat)) (i j : Nat)
        (hi : i < (rankResults entries).length) (hj : j < (rankResults entries).length),
        ((rankResults entries).get ⟨i, hi⟩).2.2 ≤ 0 →
        0 < ((rankResults entries).get ⟨j, hj⟩).2.2 → j < i) := by
  refine ⟨fun rows id hmem hnull =>
    ⟨aggregate003_allnull rows id hmem hnull, aggregateMatch_allnull rows id hmem hnull⟩,
    aggregateMatch_coerce, ?_⟩
  intro entries i j hi hj hle hpos
  by_contra hcon
  have hij : i ≤ j := Nat.le_of_not_lt hcon
  have hpw := rankResults_values_pairwise entries
  rw [List.pairwise_iff_getElem] at hpw
  rcases eq_or_lt_of_le hij with heq | hlt
  · subst heq
    have : ((rankResults entries).get ⟨i, hi⟩) = ((rankResults entries).get ⟨i, hj⟩) := rfl
    rw [this] at hle
    exact absurd hpos (not_lt.mpr hle)
  · have hi' : i < ((rankResults entries).map (fun e => e.2.2)).length := by
      simpa using hi
    have hj' : j < ((rankResults entries).map (fun e => e.2.2)).length := by
      simpa using hj
    have h := hpw i j hi' hj' hlt
    simp only [List.getElem_map] at h
    have h' : ((rankResults entries).get ⟨j, hj⟩).2.2
        ≤ ((rankResults entries).get ⟨i, hi⟩).2.2 := by
      simpa [List.get_eq_getElem] using h
    exact absurd hpos (not_lt.mpr (le_trans h' hle))

/-- Witness for C10 (amended) at concrete inputs. -/
theorem c10_null_coercion_amended_witness :
    (mapGet (aggregate003 [(("r" : String), (none : Option Rat))]) "r" = some 0
      ∧ mapGet (aggregateMatch [(("r" : String), (none : Option Rat))]) "r" = some 0)
    ∧ (0 : Nat) < 1 := by
  refine ⟨c10_null_coercion_amended.1 [("r", none)] "r" (by decide) (by decide), ?_⟩
  exact c10_null_coercion_amended.2.2 [(("a" : String), (1 : Rat)), ("b", 0)] 1 0
    (by decide) (by decide) (by decide) (by decide)

/-! ### Claim C3 -/

/-- C3: the `part_003` value-match short-circuits.  (a) When the base
candidate set from the range filter is empty, the response is empty and no
per-product store query is issued.  (b) When the working id set becomes
empty after intersecting with a (non-skipped) filter value, the loop stops
at that value: the result is the early empty response and the only query
issued at that point is that value itself — none of the remaining values is
queried.  (c) Whenever the loop short-circuits, the whole operation returns
the empty result with exactly the loop's query trace. -/
theorem c3_short_circuit (store : List MatchRow) :
    (∀ (x : Rat) (products : Option (List String)), 0 < x →
      (products.getD []).length ≤ 3 →
      baseRowsFor store x = [] →
      part003MatchTrace (some x) products store = (.ok [], []))
    ∧ (∀ (inter : List String) (p : String) (rest : List String), p ≠ "" →
        inter.filter (fun id => decide (id ∈ idsForProduct store p)) = [] →
        intersectLoop inter (p :: rest) store = (none, [p]))
    ∧ (∀ (x : Rat) (products : Option (List String)) (qs : List String), 0 < x →
        (products.getD []).length ≤ 3 →
        baseRowsFor store x ≠ [] →
        intersectLoop
          ((aggregate003 ((baseRowsFor store x).map (fun r => (r.rid, r.tv)))).map Prod.fst)
          (products.getD []) store = (none, qs) →
        part003MatchTrace (some x) products store = (.ok [], qs)) := by
  refine ⟨?_, ?_, ?_⟩
  · intro x products hx hlen hbase
    unfold part003MatchTrace
    simp [not_le.mpr hx, Nat.not_lt.mpr hlen, hbase]
  · intro inter p rest hp hempty
    unfold intersectLoop
    simp [hp, hempty]
  · intro x products qs hx hlen hbase hloop
    unfold part003MatchTrace
    simp [not_le.mpr hx, Nat.not_lt.mpr hlen, hbase, hloop]

/-- Witness for C3 at a concrete store: a base-band miss issues no queries,
an empty intersection at the first product stops there, and the outcome and
trace agree. -/
theorem c3_short_circuit_witness :
    part003MatchTrace (some 5) (some ["a"]) [⟨"r1", some 10, 100, 1, some "a"⟩]
      = (.ok [], [])
    ∧ intersectLoop ["r1"] ["zz", "b"] [⟨"r1", some 10, 100, 1, some "a"⟩]
      = (none, ["zz"])
    ∧ part003MatchTrace (some 100) (some ["a", "zz", "b"])
        [⟨"r1", some 10, 100, 1, some "a"⟩] = (.ok [], ["a", "zz"]) := by
  have hb5 : baseRowsFor [⟨"r1", some 10, 100, 1, some "a"⟩] 5 = [] := by
    norm_num [baseRowsFor, List.filter_cons, List.filter_nil]
  have hb100 : baseRowsFor [⟨"r1", some 10, 100, 1, some "a"⟩] 100
      = [⟨"r1", some 10, 100, 1, some "a"⟩] := by
    norm_num [baseRowsFor, List.filter_cons, List.filter_nil]
  refine ⟨?_, ?_, ?_⟩
  · exact (c3_short_circuit _).1 5 (some ["a"]) (by decide) (by decide) hb5
  · exact (c3_short_circuit _).2.1 ["r1"] "zz" ["b"] (by decide) (by decide)
  · refine (c3_short_circuit _).2.2 100 (some ["a", "zz", "b"]) ["a", "zz"]
      (by decide) (by decide) (by rw [hb100]; decide) ?_
    rw [hb100]
    decide

/-! ### Claim C5 -/

/-- The surviving id set of the `part_003` intersection loop (the early
empty return counts as the empty set). -/
def survivors (inter : List String) (ps : List String) (store : List MatchRow) :
    List String :=
  match (intersectLoop inter ps store).1 with
  | none => []
  | some l => l

theorem survivors_nil (inter : List String) (store : List MatchRow) :
    survivors inter [] store = inter := rfl

theorem intersectLoop_cons (inter : List String) (p : String) (rest : List String)
    (store : List MatchRow) :
    intersectLoop inter (p :: rest) store =
      if p = "" then intersectLoop inter rest store
      else
        if inter.filter (fun id => decide (id ∈ idsForProduct store p)) = [] then (none, [p])
        else
          ((intersectLoop (inter.filter (fun id => decide (id ∈ idsForProduct store p)))
              rest store).1,
            p :: (intersectLoop (inter.filter (fun id => decide (id ∈ idsForProduct store p)))
              rest store).2) := rfl

theorem intersectLoop_skip (inter : List String) (p : String) (rest : List String)
    (store : List MatchRow) (hp : p = "") :
    intersectLoop inter (p :: rest) store = intersectLoop inter rest store := by
  rw [intersectLoop_cons, if_pos hp]

theorem intersectLoop_stop (inter : List String) (p : String) (rest : List String)
    (store : List MatchRow) (hp : p ≠ "")
    (h : inter.filter (fun id => decide (id ∈ idsForProduct store p)) = []) :
    intersectLoop inter (p :: rest) store = (none, [p]) := by
  rw [intersectLoop_cons, if_neg hp, if_pos h]

theorem intersectLoop_go (inter : List String) (p : String) (rest : List String)
    (store : List MatchRow) (hp : p ≠ "")
    (h : inter.filter (fun id => decide (id ∈ idsForProduct store p)) ≠ []) :
    intersectLoop inter (p :: rest) store =
      ((intersectLoop (inter.filter (fun id => decide (id ∈ idsForProduct store p)))
          rest store).1,
        p :: (intersectLoop (inter.filter (fun id => decide (id ∈ idsForProduct store p)))
          rest store).2) := by
  rw [intersectLoop_cons, if_neg hp, if_neg h]

theorem survivors_skip (inter : List String) (p : String) (rest : List String)
    (store : List MatchRow) (hp : p = "") :
    survivors inter (p :: rest) store = survivors inter rest store := by
  unfold survivors
  rw [intersectLoop_skip inter p rest store hp]

theorem survivors_stop (inter : List String) (p : String) (rest : List String)
    (store : List MatchRow) (hp : p ≠ "")
    (h : inter.filter (fun id => decide (id ∈ idsForProduct store p)) = []) :
    survivors inter (p :: rest) store = [] := by
  unfold survivors
  rw [intersectLoop_stop inter p rest store hp h]

theorem survivors_go (inter : List String) (p : String) (rest : List String)
    (store : List MatchRow) (hp : p ≠ "")
    (h : inter.filter (fun id => decide (id ∈ idsForProduct store p)) ≠ []) :
    survivors inter (p :: rest) store =
      survivors (inter.filter (fun id => decide (id ∈ idsForProduct store p)))
        rest store := by
  unfold survivors
  rw [intersectLoop_go inter p rest store hp h]

theorem survivors_sublist (ps : List String) :
    ∀ (inter : List String) (store : List MatchRow),
      (survivors inter ps store).Sublist inter := by
  induction ps with
  | nil =>
    intro inter store
    exact (survivors_nil inter store).symm ▸ List.Sublist.refl inter
  | cons p rest ih =>
    intro inter store
    by_cases hp : p = ""
    · rw [survivors_skip inter p rest store hp]
      exact ih inter store
    · by_cases hempty :
        inter.filter (fun id => decide (id ∈ idsForProduct store p)) = []
      · rw [survivors_stop inter p rest store hp hempty]
        exact List.nil_sublist inter
      · rw [survivors_go inter p rest store hp hempty]
        exact (ih _ store).trans (List.filter_sublist inter)

theorem survivors_append_sublist (ps : List String) :
    ∀ (qs : List String) (inter : List String) (store : List MatchRow),
      (survivors inter (ps ++ qs) store).Sublist (survivors inter ps store) := by
  induction ps with
  | nil =>
    intro qs inter store
    rw [List.nil_append, survivors_nil]
    exact survivors_sublist qs inter store
  | cons p rest ih =>
    intro qs inter store
    rw [List.cons_append]
    by_cases hp : p = ""
    · rw [survivors_skip inter p (rest ++ qs) store hp, survivors_skip inter p rest store hp]
      exact ih qs inter store
    · by_cases hempty :
        inter.filter (fun id => decide (id ∈ idsForProduct store p)) = []
      · rw [survivors_stop inter p (rest ++ qs) store hp hempty,
          survivors_stop inter p rest store hp hempty]
      · rw [survivors_go inter p (rest ++ qs) store hp hempty,
          survivors_go inter p rest store hp hempty]
        exact ih qs _ store

/-- C5: the surviving id set of the `part_003` intersection loop after `k2`
filters is a subset of (indeed a selection from) the surviving set after the
first `k1 < k2` filters, and has at most as many entries, for filter-list
lengths up to 3. -/
theorem c5_monotone_shrink (base : List String) (store : List MatchRow)
    (ps : List String) (k1 k2 : Nat) (hk : k1 < k2) (_hk3 : k2 ≤ 3) :
    (∀ id, id ∈ survivors base (ps.take k2) store → id ∈ survivors base (ps.take k1) store)
    ∧ (survivors base (ps.take k2) store).length
        ≤ (survivors base (ps.take k1) store).length := by
  have hsplit : ps.take k2 = ps.take k1 ++ ((ps.drop k1).take (k2 - k1)) := by
    have h2 : k1 + (k2 - k1) = k2 := by omega
    calc ps.take k2 = ps.take (k1 + (k2 - k1)) := by rw [h2]
      _ = ps.take k1 ++ ((ps.drop k1).take (k2 - k1)) := List.take_add ps k1 (k2 - k1)
  have hsub : (survivors base (ps.take k2) store).Sublist
      (survivors base (ps.take k1) store) := by
    rw [hsplit]
    exact survivors_append_sublist (ps.take k1) ((ps.drop k1).take (k2 - k1)) base store
  exact ⟨fun id hid => hsub.subset hid, hsub.length_le⟩

/-! ### Claim C2 -/

theorem mem_catIds (store : List (String × String)) (c id : String) :
    id ∈ catIds store c ↔ (id, c) ∈ store := by
  unfold catIds
  rw [mem_jsSetOfList]
  constructor
  · intro h
    obtain ⟨r, hr, hid⟩ := List.mem_map.mp h
    have hf := List.mem_filter.mp hr
    have hc : r.2 = c := by simpa using hf.2
    have : r = (id, c) := Prod.ext hid hc
    rw [← this]
    exact hf.1
  · intro h
    exact List.mem_map.mpr ⟨(id, c), List.mem_filter.mpr ⟨h, by simp⟩, rfl⟩

theorem iterLoop_cons (inter : List String) (c : String) (rest : List String)
    (store : List (String × String)) :
    iterLoop inter (c :: rest) store =
      if c = "" then iterLoop inter rest store
      else
        if inter.filter (fun id => decide (id ∈ catIds store c)) = [] then []
        else iterLoop (inter.filter (fun id => decide (id ∈ catIds store c))) rest store := rfl

/-- Membership characterization of the iterative intersection: an id
survives the loop exactly when it belongs to the starting set and matches
every requested value. -/
theorem mem_iterLoop (cs : List String) :
    ∀ (inter : List String) (store : List (String × String)) (id : String),
    "" ∉ cs →
    (id ∈ iterLoop inter cs store ↔ id ∈ inter ∧ ∀ c ∈ cs, (id, c) ∈ store) := by
  induction cs with
  | nil =>
    intro inter store id _
    simp [iterLoop]
  | cons c rest ih =>
    intro inter store id hns
    have hc : c ≠ "" := fun h => hns (List.mem_cons.mpr (Or.inl h.symm))
    have hrest : "" ∉ rest := fun h => hns (List.mem_cons.mpr (Or.inr h))
    rw [iterLoop_cons, if_neg hc]
    by_cases hempty : inter.filter (fun id => decide (id ∈ catIds store c)) = []
    · rw [if_pos hempty]
      simp only [List.not_mem_nil, false_iff]
      rintro ⟨hin, hall⟩
      have hidc : (id, c) ∈ store := hall c (List.mem_cons_self c rest)
      have hmem : id ∈ inter.filter (fun id => decide (id ∈ catIds store c)) :=
        List.mem_filter.mpr ⟨hin, by simp [mem_catIds, hidc]⟩
      rw [hempty] at hmem
      exact List.not_mem_nil id hmem
    · rw [if_neg hempty, ih _ store id hrest, List.mem_filter]
      constructor
      · rintro ⟨⟨hin, hcs⟩, hall⟩
        refine ⟨hin, ?_⟩
        intro c' hc'
        rcases List.mem_cons.mp hc' with rfl | hc'
        · exact (mem_catIds store c' id).mp (by simpa using hcs)
        · exact hall c' hc'
      · rintro ⟨hin, hall⟩
        refine ⟨⟨hin, ?_⟩, fun c' hc' => hall c' (List.mem_cons.mpr (Or.inr hc'))⟩
        simp only [decide_eq_true_eq]
        exact (mem_catIds store c id).mpr (hall c (List.mem_cons_self c rest))

/-- Category-set lookup in the grouping pass: a category is recorded for an
id exactly when the corresponding row was folded in. -/
theorem catLookup_foldl (rows : List (String × String)) :
    ∀ (m : List (String × List String)) (rid cat : String),
    (cat ∈ ((mapGet (rows.foldl (fun m r => addCat m r.1 r.2) m) rid).getD []) ↔
      cat ∈ ((mapGet m rid).getD []) ∨ (rid, cat) ∈ rows) := by
  induction rows with
  | nil =>
    intro m rid cat
    simp
  | cons r rest ih =>
    intro m rid cat
    rw [List.foldl_cons, ih]
    by_cases hr : r.1 = rid
    · subst hr
      rw [addCat, mapGet_mapSet_self]
      simp only [Option.getD_some, mem_insertIfNew, List.mem_cons]
      have hpair : ((r.1, cat) = r) ↔ cat = r.2 := by
        rw [Prod.ext_iff]
        simp
      rw [hpair]
      tauto
    · rw [addCat, mapGet_mapSet_ne m r.1 _ rid hr]
      have hpair : ¬((rid, cat) = r) := by
        rw [Prod.ext_iff]
        rintro ⟨h1, _⟩
        exact hr h1.symm
      simp only [List.mem_cons, hpair, false_or]

/-- An id has an entry in the grouping pass exactly when it contributed a
row. -/
theorem catKeys_foldl (rows : List (String × String)) :
    ∀ (m : List (String × List String)) (rid : String),
    ((mapGet (rows.foldl (fun m r => addCat m r.1 r.2) m) rid).isSome ↔
      (mapGet m rid).isSome ∨ rid ∈ rows.map Prod.fst) := by
  induction rows with
  | nil =>
    intro m rid
    simp
  | cons r rest ih =>
    intro m rid
    rw [List.foldl_cons, ih]
    by_cases hr : r.1 = rid
    · subst hr
      rw [addCat, mapGet_mapSet_self]
      simp
    · rw [addCat, mapGet_mapSet_ne m r.1 _ rid hr]
      have : (rid ∈ (r :: rest).map Prod.fst) ↔ rid ∈ rest.map Prod.fst := by
        simp only [List.map_cons, List.mem_cons]
        constructor
        · rintro (h | h)
          · exact absurd h.symm hr
          · exact h
        · exact Or.inr
      rw [this]

theorem byId_keys_nodup (rows : List (String × String)) :
    ∀ (m : List (String × List String)), (m.map Prod.fst).Nodup →
    (((rows.foldl (fun m r => addCat m r.1 r.2) m)).map Prod.fst).Nodup := by
  induction rows with
  | nil => intro m h; exact h
  | cons r rest ih =>
    intro m h
    exact ih _ (keys_mapSet_nodup _ _ _ h)

/-- On a map with duplicate-free keys, an id survives an entry filter
exactly when its (unique) entry satisfies the predicate. -/
theorem mem_filter_keys_of_nodup (m : List (String × α)) (P : String × α → Bool)
    (id : String) (h : (m.map Prod.fst).Nodup) :
    id ∈ (m.filter P).map Prod.fst ↔ ∃ s, mapGet m id = some s ∧ P (id, s) = true := by
  induction m with
  | nil => simp [mapGet]
  | cons hd tl ih =>
    obtain ⟨a, b⟩ := hd
    simp only [List.map_cons, List.nodup_cons] at h
    have hget : mapGet ((a, b) :: tl) id = if a = id then some b else mapGet tl id := rfl
    by_cases ha : a = id
    · subst ha
      rw [hget, if_pos rfl]
      by_cases hP : P (a, b) = true
      · rw [List.filter_cons, if_pos hP]
        constructor
        · intro _
          exact ⟨b, rfl, hP⟩
        · intro _
          rw [List.map_cons]
          exact List.mem_cons_self _ _
      · rw [List.filter_cons, if_neg hP]
        constructor
        · intro hmem
          obtain ⟨e, he, hef⟩ := List.mem_map.mp hmem
          have he' : e ∈ tl := List.mem_of_mem_filter he
          exact absurd (hef ▸ List.mem_map_of_mem Prod.fst he') h.1
        · rintro ⟨s, hs, hPs⟩
          rw [Option.some.injEq] at hs
          exact absurd (hs.symm ▸ hPs) hP
    · rw [hget, if_neg ha]
      by_cases hP : P (a, b) = true
      · rw [List.filter_cons, if_pos hP, List.map_cons, List.mem_cons]
        constructor
        · rintro (h' | h')
          · exact absurd h'.symm ha
          · exact (ih h.2).mp h'
        · intro h'
          exact Or.inr ((ih h.2).mpr h')
      · rw [List.filter_cons, if_neg hP]
        exact ih h.2

/-- Membership characterization of the batch realization: an id is a hit
exactly when the store holds a row for it with every requested category. -/
theorem mem_batchHits (store : List (String × String)) (cats : List String)
    (id : String) (hne : cats ≠ []) :
    id ∈ batchHits store cats ↔ ∀ c ∈ cats, (id, c) ∈ store := by
  unfold batchHits sortStrings
  rw [(List.perm_insertionSort strLe _).mem_iff]
  rw [mem_filter_keys_of_nodup _ _ id
    (byId_keys_nodup (store.filter (fun r => decide (r.2 ∈ cats))) [] (by simp))]
  constructor
  · rintro ⟨s, hs, hall⟩ c hc
    have hcs : c ∈ s := by
      rw [List.all_eq_true] at hall
      have := hall c hc
      simpa using this
    have hrow := (catLookup_foldl (store.filter (fun r => decide (r.2 ∈ cats))) [] id c).mp
      (by rw [hs]; simpa using hcs)
    simp only [mapGet, Option.getD_none, List.not_mem_nil, false_or] at hrow
    exact (List.mem_filter.mp hrow).1
  · intro hall
    obtain ⟨c0, hc0⟩ := List.exists_mem_of_ne_nil cats hne
    have hrow0 : (id, c0) ∈ store.filter (fun r => decide (r.2 ∈ cats)) :=
      List.mem_filter.mpr ⟨hall c0 hc0, by simpa using hc0⟩
    have hsome : (mapGet ((store.filter (fun r => decide (r.2 ∈ cats))).foldl
        (fun m r => addCat m r.1 r.2) []) id).isSome := by
      rw [catKeys_foldl]
      exact Or.inr (List.mem_map_of_mem Prod.fst hrow0)
    obtain ⟨s, hs⟩ := Option.isSome_iff_exists.mp hsome
    refine ⟨s, hs, ?_⟩
    rw [List.all_eq_true]
    intro c hc
    have hrow : (id, c) ∈ store.filter (fun r => decide (r.2 ∈ cats)) :=
      List.mem_filter.mpr ⟨hall c hc, by simpa using hc⟩
    have := (catLookup_foldl (store.filter (fun r => decide (r.2 ∈ cats))) [] id c).mpr
      (Or.inr hrow)
    rw [hs] at this
    simpa using this

/-- C2: for every store and every list of 1-3 (non-empty) filter values,
the batch realization of intersection (`batchHits`, from
`intersection-by-category/route.ts`) yields the same surviving entity-id set
as the iterative realization (`iterLoop`, the `part_003` loop over the same
store) started from the set of all ids occurring in the store. -/
theorem c2_batch_iter_equiv (store : List (String × String)) (cats : List String)
    (h1 : cats ≠ []) (_h3 : cats.length ≤ 3) (hns : "" ∉ cats) (id : String) :
    id ∈ batchHits store cats
      ↔ id ∈ iterLoop (jsSetOfList (store.map Prod.fst)) cats store := by
  rw [mem_batchHits store cats id h1, mem_iterLoop cats _ store id hns]
  constructor
  · intro hall
    refine ⟨?_, hall⟩
    obtain ⟨c0, hc0⟩ := List.exists_mem_of_ne_nil cats h1
    rw [mem_jsSetOfList]
    exact List.mem_map.mpr ⟨(id, c0), hall c0 hc0, rfl⟩
  · rintro ⟨_, hall⟩
    exact hall

/-- Witness for C2 at a concrete store and category pair. -/
theorem c2_batch_iter_equiv_witness :
    (("r1" : String) ∈ batchHits [("r1", "c1"), ("r1", "c2"), ("r2", "c1")] ["c1", "c2"]
      ↔ ("r1" : String) ∈ iterLoop
          (jsSetOfList ([("r1", "c1"), ("r1", "c2"), ("r2", "c1")].map Prod.fst))
          ["c1", "c2"] [("r1", "c1"), ("r1", "c2"), ("r2", "c1")]) :=
  c2_batch_iter_equiv [("r1", "c1"), ("r1", "c2"), ("r2", "c1")] ["c1", "c2"]
    (by decide) (by decide) (by decide) "r1"

/-- Witness for C5 at concrete input. -/
theorem c5_monotone_shrink_witness :
    (survivors ["r1", "r2"] (["a", "b"].take 2) [⟨"r1", some 10, 100, 1, some "a"⟩]).length
      ≤ (survivors ["r1", "r2"] (["a", "b"].take 1) [⟨"r1", some 10, 100, 1, some "a"⟩]).length :=
  (c5_monotone_shrink ["r1", "r2"] [⟨"r1", some 10, 100, 1, some "a"⟩]
    ["a", "b"] 1 2 (by decide) (by decide)).2

/-! ### Claim C1 -/

/-- A store in which `r1` matches the value band and carries the products
`a`, `b` and `c` — but not `d`. -/
def truncStore : List MatchRow :=
  [⟨"r1", some 10, 100, 1, some "a"⟩, ⟨"r1", some 10, 100, 1, some "b"⟩,
   ⟨"r1", some 10, 100, 1, some "c"⟩]

/-- C1, counterexample: the `match/route.ts` value-match and the
category-intersection endpoint do NOT reject filter lists with more than 3
entries; they silently truncate to the first 3.  A 4-product request
succeeds and returns `r1` even though `r1` lacks the 4th product; a
4-category request succeeds and returns `r1` even though `r1` lacks the 4th
category. -/
theorem c1_silent_truncation_counterexample :
    matchRoute (some 100) (some ["a", "b", "c", "d"]) truncStore = .ok [(1, "r1", 10)]
    ∧ categoryRoute (some ["c1", "c1", "c1", "c2"]) [("r1", "c1")] = .ok [(1, "r1")]
    ∧ matchRoute (some 100) (some ["a", "b", "c", "d"]) truncStore
        ≠ .badRequest "products may have at most 3 items" := by
  have hb : baseRowsFor truncStore 100 = truncStore := by
    norm_num [baseRowsFor, truncStore, List.filter_cons, List.filter_nil]
  have hbase : matchBaseRows 100 ["a", "b", "c"] truncStore = truncStore := by
    unfold matchBaseRows
    rw [hb]
    decide
  have h1 : matchRoute (some 100) (some ["a", "b", "c", "d"]) truncStore
      = .ok [(1, "r1", 10)] := by
    show (if (100 : Rat) ≤ 0 then Outcome.badRequest "value must be a positive number"
      else
        if matchBaseRows 100 ["a", "b", "c"] truncStore = [] then .ok []
        else .ok (rankResults (matchKept ["a", "b", "c"]
          (matchBaseRows 100 ["a", "b", "c"] truncStore)))) = .ok [(1, "r1", 10)]
    rw [if_neg (by norm_num : ¬(100 : Rat) ≤ 0), hbase,
      if_neg (by decide : ¬(truncStore = []))]
    decide
  exact ⟨h1, by decide, fun h => by rw [h1] at h; cases h⟩

/-- C1 (amended): only the `part_003` value-match realization rejects
product lists longer than 3 with a 400 ValidationError; the
`match/route.ts` value-match and the category-intersection endpoint instead
behave exactly as if the list were its first 3 entries (silent
truncation). -/
theorem c1_overlong_filter_amended (x : Rat) (ps : List String) (store : List MatchRow)
    (hx : 0 < x) (hlen : 3 < ps.length) :
    part003Match (some x) (some ps) store
      = .badRequest "products may have at most 3 items"
    ∧ (∀ (v : Option Rat) (store2 : List MatchRow),
        matchRoute v (some ps) store2 = matchRoute v (some (ps.take 3)) store2)
    ∧ (∀ (cstore : List (String × String)),
        categoryRoute (some ps) cstore = categoryRoute (some (ps.take 3)) cstore) := by
  have hts : ((some (ps.take 3) : Option (List String)).getD []).take 3
      = ((some ps : Option (List String)).getD []).take 3 := by
    simp [List.take_take]
  refine ⟨?_, ?_, ?_⟩
  · unfold part003Match part003MatchTrace
    simp [not_le.mpr hx, hlen]
  · intro v store2
    unfold matchRoute
    rw [hts]
  · intro cstore
    unfold categoryRoute
    rw [hts]

/-- Witness for C1 (amended) at a concrete overlong product list. -/
theorem c1_overlong_filter_amended_witness :
    part003Match (some 1) (some ["a", "b", "c", "d"]) []
      = .badRequest "products may have at most 3 items" :=
  (c1_overlong_filter_amended 1 ["a", "b", "c", "d"] [] (by decide) (by decide)).1

/-! ### Claim C7 -/

/-- A row of the `subcategories` table as the `part_003` items listing
touches it: the two ascending sort columns `category` and `subcategory`,
and the `created_at` column the cursor reads and filters on (timestamps
embedded as `Int`; the unused `name` column is omitted). -/
structure ItemRow where
  category : String
  subcategory : String
  created_at : Int
deriving DecidableEq, Repr

/-- The trimming step of the `part_003` items listing (lines 172-190):
`rows` is the store's reply ordered ascending by `(category, subcategory)`
after the filters; `.limit(limit + 1)` fetches its first `limit + 1` rows;
if more than `limit` came back, trim to `limit` and emit the last retained
row's `created_at` — not its sort key — as `nextCursor`, else return
everything with a null cursor. -/
def itemsPage (rows : List ItemRow) (limit : Nat) : List ItemRow × Option Int :=
  if limit < (rows.take (limit + 1)).length then
    ((rows.take (limit + 1)).take limit,
      ((((rows.take (limit + 1)).take limit).getLast?).map ItemRow.created_at))
  else (rows.take (limit + 1), none)

/-- Three subcategory rows, listed in their `(category, subcategory)` sort
order; their `created_at` values do not follow that order. -/
def demoItemsStore : List ItemRow :=
  [⟨"a", "x", 100⟩, ⟨"a", "y", 50⟩, ⟨"b", "z", 70⟩]

/-- C7, code evaluation at the failing input: the `part_003` items listing
fetches `limit + 1` rows and trims exactly as the claim describes, but it
sorts ascending by `(category, subcategory)` while setting `nextCursor` to
the last retained row's `created_at` — not the sort-key value — and applies
it as `created_at < cursor`.  On a 3-row store with limit 2, page 1 returns
the first two rows with `nextCursor = 50`, their `created_at`; the
follow-up fetch (`created_at < 50`, same order) is empty, so the third row
`(b, z)` is never served. -/
theorem c7_items_cursor_eval :
    itemsPage demoItemsStore 2 = ([⟨"a", "x", 100⟩, ⟨"a", "y", 50⟩], some 50)
    ∧ (itemsPage demoItemsStore 2).2
        = (((itemsPage demoItemsStore 2).1).getLast?).map ItemRow.created_at
    ∧ itemsPage (demoItemsStore.filter (fun r => decide (r.created_at < 50))) 2
        = ([], none)
    ∧ (⟨"b", "z", 70⟩ : ItemRow) ∈ demoItemsStore
    ∧ (⟨"b", "z", 70⟩ : ItemRow) ∉ (itemsPage demoItemsStore 2).1 := by
  exact ⟨by decide, by decide, by decide, by decide, by decide⟩

/-- Supporting lemma for C7: the `records/route.ts` listing realizes the
claimed trimming scheme faithfully — it fetches `limit + 1` rows of the
ordered store reply; when the store holds more than `limit` matching rows
the page is trimmed to the first `limit` rows and `nextCursor` is the
sort-key (`record_id`) of the last retained row, otherwise the whole
fetched set is returned with a null cursor.  The page always has
`min limit |rows|` entries. -/
theorem c7_pagination (rows : List RecRow) (limit : Nat) (hl : 1 ≤ limit) :
    (recordsPage rows limit).1.length = min limit rows.length
    ∧ (rows.length ≤ limit → recordsPage rows limit = (rows, none))
    ∧ (limit < rows.length →
        (recordsPage rows limit).1 = rows.take limit
        ∧ ∃ r, (rows.take limit).getLast? = some r
            ∧ (recordsPage rows limit).2 = some r.rid) := by
  unfold recordsPage
  have hdl : (rows.take (limit + 1)).length = min (limit + 1) rows.length :=
    List.length_take _ _
  by_cases hmore : limit < (rows.take (limit + 1)).length
  · rw [if_pos hmore]
    have hlt : limit < rows.length := by
      rw [hdl] at hmore
      omega
    have htt : (rows.take (limit + 1)).take limit = rows.take limit := by
      rw [List.take_take]
      congr 1
      omega
    refine ⟨?_, ?_, ?_⟩
    · rw [htt, List.length_take]
    · intro hle
      omega
    · intro _
      refine ⟨htt, ?_⟩
      have hne : rows.take limit ≠ [] := by
        rw [Ne, List.take_eq_nil_iff]
        push_neg
        constructor
        · omega
        · intro hnil
          rw [hnil] at hlt
          simp at hlt
      obtain ⟨r, hr⟩ := Option.isSome_iff_exists.mp (List.getLast?_isSome.mpr hne)
      refine ⟨r, hr, ?_⟩
      rw [htt, hr]
      rfl
  · rw [if_neg hmore]
    have hle : rows.length ≤ limit := by
      rw [hdl] at hmore
      omega
    have hall : rows.take (limit + 1) = rows := List.take_of_length_le (by omega)
    refine ⟨?_, ?_, ?_⟩
    · rw [hall, min_eq_right hle]
    · intro _
      rw [hall]
    · intro hlt
      omega

/-- Concrete instantiation of the supporting lemma at a 3-row store and
limit 2. -/
theorem c7_pagination_witness :
    (recordsPage [⟨1, 5⟩, ⟨2, 6⟩, ⟨3, 7⟩] 2).1
        = ([⟨1, 5⟩, ⟨2, 6⟩, ⟨3, 7⟩] : List RecRow).take 2
    ∧ ∃ r, (([⟨1, 5⟩, ⟨2, 6⟩, ⟨3, 7⟩] : List RecRow).take 2).getLast? = some r
        ∧ (recordsPage [⟨1, 5⟩, ⟨2, 6⟩, ⟨3, 7⟩] 2).2 = some r.rid :=
  (c7_pagination [⟨1, 5⟩, ⟨2, 6⟩, ⟨3, 7⟩] 2 (by decide)).2.2 (by decide)

/-! ### Claim C8 -/

/-- Five records with ids 1-5, all with the selector flag set. -/
def demoListingStore : List CatRow := [⟨1, 1⟩, ⟨2, 1⟩, ⟨3, 1⟩, ⟨4, 1⟩, ⟨5, 1⟩]

/-- C8, code evaluation at the failing input: the `part_000` listing orders
ascending by `id` but applies the cursor as `id < cursor`.  Page 1
(limit 2) emits ids 1, 2 with `nextCursor = 2`; following that cursor
returns id 1 again — a row already emitted — instead of the rows strictly
past the boundary (ids 3, 4, 5), which is what a `>`-cursor on this
ascending listing would select. -/
theorem c8_cursor_direction_eval :
    part000List demoListingStore none 2 = ([⟨1, 1⟩, ⟨2, 1⟩], some 2)
    ∧ part000List demoListingStore (some 2) 2 = ([⟨1, 1⟩], none)
    ∧ (⟨1, 1⟩ : CatRow) ∈ (part000List demoListingStore none 2).1
    ∧ (demoListingStore.filter (fun r => decide (2 < r.id))).map CatRow.id = [3, 4, 5] := by
  exact ⟨by decide, by decide, by decide, by decide⟩

/-! ### Claim C9 -/

/-- C9, code evaluation: the `part_000` listing's effective limit is NaN for
EVERY request — `parseInt(raw, 100)` has an out-of-range radix, so even the
default `"20"` parses to NaN, and NaN flows through `Math.max`/`Math.min`
(and its clamp cap is 1000, not 100).  The `records/route.ts` listing
clamps correctly for missing and numeric limits but also yields NaN on a
non-numeric limit parameter. -/
theorem c9_limit_clamp_eval :
    part000Limit none = none
    ∧ part000Limit (some "20") = none
    ∧ recordsLimit (some "abc") = none
    ∧ recordsLimit none = some 20
    ∧ recordsLimit (some "500") = some 100
    ∧ recordsLimit (some "7") = some 7 := by
  exact ⟨by decide, by decide, by decide, by decide, by decide, by decide⟩

end MyApi
